import Mathlib

/-!
Verification of the `dtn` IQFeed client (files `iqfeed/connection.py` and
`iqfeed/service.py`) against its natural-language specification.

Python strings are modelled as lists of characters (`Str`), Python's
`str.split(sep)` for a one-character separator as `pySplit`, and fallible
code paths (Python `IndexError` on list indexing) as `Option` results.
Wall-clock timestamps are modelled as integers counting milliseconds, and
`time.sleep(1)` as a boolean flag recording that the sleep branch ran.
-/

namespace Iqfeed

/-- A Python string: a list of characters. -/
abbrev Str := List Char

/-- Python `s.split(sep)` for a single-character separator `sep`.
Always returns a non-empty list; `"".split(sep) == [""]`. -/
def pySplit (sep : Char) : Str → List Str
  | [] => [[]]
  | c :: cs =>
    if c = sep then
      [] :: pySplit sep cs
    else
      match pySplit sep cs with
      | r :: rs => (c :: r) :: rs
      | [] => [[c]]

/-- Python `sep.join(parts)` for a single-character separator. -/
def pyJoin (sep : Char) : List Str → Str
  | [] => []
  | p :: ps =>
    match ps with
    | [] => p
    | _ :: _ => p ++ sep :: pyJoin sep ps

/-- First comma token of a message: `message.split(",")[0]`.  The split of any
string is non-empty, so this access never raises in the Python source. -/
def tok0 (m : Str) : Str := (pySplit ',' m).headD []

/-- Second comma token of a message: `message.split(",")[1]`, which raises
`IndexError` (here: `none`) when the message contains no comma. -/
def tok1? (m : Str) : Option Str := (pySplit ',' m).get? 1

/-- Number of comma tokens of a message. -/
def tokLen (m : Str) : Nat := (pySplit ',' m).length

/-! ## connection.py -/

/-- `Connection.read`, framing part, accumulation loop (lines 102-104):
starting from the first received chunk `acc`, keep appending further chunks
while the buffer is non-empty and does not end in `"\n"`.  `none` models the
blocking read / `TimeoutError` when the transport yields no further chunk. -/
def recv_accumulate (acc : Str) : List Str → Option Str
  | [] =>
    if acc = [] ∨ acc.getLast? = some '\n' then some acc else none
  | c :: cs =>
    if acc = [] ∨ acc.getLast? = some '\n' then some acc
    else recv_accumulate (acc ++ c) cs

/-- `Connection.read`, splitting part (lines 106-109): split the buffer on
`"\n"`; when the final element is the empty string, delete it. -/
def frame_split (buf : Str) : List Str :=
  let messages := pySplit '\n' buf
  if messages.getLast? = some [] then messages.dropLast else messages

/-- `Connection.read`, framing layer: first `recv`, the accumulation loop,
then the split.  `none` models a read that blocks / times out. -/
def read_frame (chunks : List Str) : Option (List Str) :=
  match chunks with
  | [] => none
  | c :: cs => (recv_accumulate c cs).map frame_split

/-- `Connection.check_system_messages` (lines 229-248): true when some
message's first comma token is `"S"`. -/
def check_system_messages (messages : List Str) : Bool :=
  messages.any (fun m => tok0 m = "S".data)

/-- Index of the last message whose first comma token is `"E"`; this is the
value `idx_delete` holds after the scan loop of `Connection.check_error`
(lines 256-261), each match overwriting the previous one. -/
def lastErrorIdx : List Str → Option Nat
  | [] => none
  | m :: ms =>
    match lastErrorIdx ms with
    | some j => some (j + 1)
    | none => if tok0 m = "E".data then some 0 else none

/-- True when some message is `"E"`-tagged but has no second comma token, in
which case the logging statement `log.error(f"... {split_message[1]}")` of
`Connection.check_error` raises `IndexError`. -/
def hasBareError (messages : List Str) : Bool :=
  messages.any (fun m => tok0 m = "E".data && tokLen m = 1)

/-- `Connection.check_error` (lines 250-266): log every `"E"`-tagged message
(raising, i.e. `none`, on a bare `"E"` line), then delete the single message
at the last recorded error index, if any. -/
def check_error (messages : List Str) : Option (List Str) :=
  if hasBareError messages then none
  else
    some (match lastErrorIdx messages with
          | none => messages
          | some i => messages.eraseIdx i)

/-- The `expected_messages` list of `Connection.check_startup`. -/
def expected_messages : List Str :=
  ["KEYOK".data, "CUST".data, "IP".data, "SERVER CONNECTED".data, "KEY".data]

/-- Loop of `Connection.check_startup` (lines 289-295) carrying the
`is_connected` accumulator; `none` models the `IndexError` raised on a
message with no comma. -/
def check_startup_go (acc : Bool) : List Str → Option Bool
  | [] => some acc
  | m :: ms =>
    match tok1? m with
    | none => none
    | some t =>
      check_startup_go
        (acc || (decide (t ∈ expected_messages) && decide (t = "SERVER CONNECTED".data)))
        ms

/-- `Connection.check_startup` (lines 268-297): `is_connected` starts false
and is set when a message's second comma token is in `expected_messages` and
equals `"SERVER CONNECTED"`. -/
def check_startup (messages : List Str) : Option Bool :=
  check_startup_go false messages

/-- `Connection.process_admin` (lines 299-321): split every message on
commas; skip `"CURRENT PROTOCOL"` / `"CLIENTSTATS"` rows, keep `"STATS"`
rows; `none` models the `IndexError` on a message with no comma. -/
def process_admin : List Str → Option (List (List Str))
  | [] => some []
  | m :: ms =>
    let s := pySplit ',' m
    match s.get? 1 with
    | none => none
    | some t =>
      if t = "CURRENT PROTOCOL".data ∨ t = "CLIENTSTATS".data then process_admin ms
      else if t = "STATS".data then (process_admin ms).map (s :: ·)
      else process_admin ms

/-- `Connection.process_stream` (lines 323-342): for each message whose first
comma token is `"Q"`, delete the trailing token (`del split_message[-1]`) and
keep `split_message[1:]` as the data row. -/
def process_stream (messages : List Str) : List (List Str) :=
  messages.filterMap (fun m =>
    let s := pySplit ',' m
    if tok0 m = "Q".data then some ((s.dropLast).drop 1) else none)

/-- `Connection.select_fieldnames` (lines 377-398), response-processing loop
over the state `(update_fieldnames, symbol)`: a message whose second comma
token is `"CURRENT UPDATE FIELDNAMES"` sets the fieldnames to
`split_message[2:]` and the symbol to `split_message[2]`.  `none` models the
`IndexError` raised either at `split_message[1]` (no comma) or at
`split_message[2]` (matching message with exactly two tokens). -/
def select_fieldnames (fields : List Str) (symbol : Str) :
    List Str → Option (List Str × Str)
  | [] => some (fields, symbol)
  | m :: ms =>
    let s := pySplit ',' m
    match s.get? 1 with
    | none => none
    | some t =>
      if t ≠ "CURRENT UPDATE FIELDNAMES".data then select_fieldnames fields symbol ms
      else
        match s.get? 2 with
        | none => none
        | some sym => select_fieldnames (s.drop 2) sym ms

/-- `Connection.__init__` state relevant to session creation: the stored
port, host, name and socket timeout (lines 10-25). -/
structure ConnectionObj where
  port : Nat
  host : Str
  name : Str
  timeout : Int
  connected : Bool
deriving DecidableEq

/-- Python default of the `timeout` parameter of `Connection.__init__`. -/
def CONNECTION_DEFAULT_TIMEOUT : Int := 300

/-- `Connection(port=..., host=..., name=..., timeout=...)`: a fresh,
not-yet-connected session object whose socket timeout is the argument. -/
def Connection_init (port : Nat) (host : Str) (name : Str) (timeout : Int) :
    ConnectionObj :=
  ⟨port, host, name, timeout, false⟩

/-! ## service.py -/

/-- The host stored by `Service.__init__`. -/
def SERVICE_HOST : Str := "127.0.0.1".data

/-- `Service.connection(port, name, timeout)` (lines 129-165), restricted to
which `Connection` object ends up stored under `name`: with no existing
session a fresh one is built passing the caller's `timeout` through; with an
existing but unconnected session a replacement is built by a call that omits
the `timeout` argument, so Python supplies the `Connection.__init__` default;
with an existing connected session the stored object is kept as is. -/
def service_connection (existing : Option ConnectionObj) (port : Nat)
    (name : Str) (timeout : Int) : ConnectionObj :=
  match existing with
  | none => Connection_init port SERVICE_HOST name timeout
  | some c =>
    if c.connected then c
    else Connection_init port SERVICE_HOST name CONNECTION_DEFAULT_TIMEOUT

/-- `REQUEST_LIMIT` of `Service.check_requests`. -/
def REQUEST_LIMIT : Nat := 50

/-- Backward walk of `Service.check_requests` (lines 219-225): the loop
`for i in range(-1, -len(queue), -1)` visits `queue[-1], ..., queue[-(len-1)]`,
i.e. the first `len - 1` entries of the reversed queue, and stops at the
first entry at least one second (1000 ms) older than `now`.  `walkIdx`
returns the position (in the reversed order) of that first stale entry. -/
def walkIdx (now : Int) : List Int → Option Nat
  | [] => none
  | t :: ts =>
    if 1000 ≤ now - t then some 0
    else (walkIdx now ts).map (· + 1)

/-- `Service.check_requests` (lines 209-227) over the timestamp queue, with
`now` the current time in milliseconds.  When the walk finds a stale entry at
reversed position `j`, the queue is truncated to `queue[-(j+1):]` (its last
`j + 1` entries, the found stale entry included) and the 1-second sleep runs
when the truncated length is still at least `REQUEST_LIMIT`.  Afterwards the
current timestamp is appended.  Returns the new queue and whether the sleep
branch ran. -/
def check_requests (q : List Int) (now : Int) : List Int × Bool :=
  match walkIdx now (q.reverse.take (q.length - 1)) with
  | none => (q ++ [now], false)
  | some j => (q.drop (q.length - (j + 1)) ++ [now], decide (REQUEST_LIMIT ≤ j + 1))

/-- The pagination sentinel `"!ENDMSG!,\r"`. -/
def SENTINEL : Str := "!ENDMSG!,\r".data

/-- Row normalization of `Service.lookup_security_types` (lines 282-298) for
one non-sentinel message: an empty message is skipped (`some none`); any
other message is split on commas, a trailing `"\r"` token is deleted, a
leading token equal to `request_id` is deleted, a leading `"LS"` token is
deleted, and the rest is the row (`some (some row)`).  `none` models the
`IndexError` raised when an indexing step hits an emptied list. -/
def norm_row (request_id : Str) (m : Str) : Option (Option (List Str)) :=
  if m = [] then some none
  else
    let s0 := pySplit ',' m
    let s1 := if s0.getLast? = some "\r".data then s0.dropLast else s0
    match s1 with
    | [] => none
    | t :: rest =>
      let s2 := if t = request_id then rest else s1
      match s2 with
      | [] => none
      | t2 :: rest2 => some (some (if t2 = "LS".data then rest2 else s2))

/-- The row a message contributes, if any (error case collapsed). -/
def norm_rowD (request_id : Str) (m : Str) : Option (List Str) :=
  (norm_row request_id m).bind id

/-- Inner `for message in messages` loop of `Service.lookup_security_types`
(lines 278-298) over one read cycle: stops at the sentinel (returning the
accumulator and `false` for the `queue` flag), otherwise normalizes and
appends each message's row.  `none` models a raised `IndexError`. -/
def run_cycle (request_id : Str) (acc : List (List Str)) :
    List Str → Option (List (List Str) × Bool)
  | [] => some (acc, true)
  | m :: ms =>
    if m = SENTINEL then some (acc, false)
    else
      match norm_row request_id m with
      | none => none
      | some none => run_cycle request_id acc ms
      | some (some row) => run_cycle request_id (acc ++ [row]) ms

/-- Outer `while queue` loop of `Service.lookup_security_types` (lines
270-298) over the sequence of read cycles.  Exhausting the cycle list models
the next read raising `TimeoutError`, which breaks the loop and returns the
rows accumulated so far. -/
def run_cycles (request_id : Str) (acc : List (List Str)) :
    List (List Str) → Option (List (List Str))
  | [] => some acc
  | cyc :: rest =>
    match run_cycle request_id acc cyc with
    | none => none
    | some (acc', true) => run_cycles request_id acc' rest
    | some (acc', false) => some acc'

/-- Row accumulation of `Service.lookup_security_types` over a run whose
read cycles deliver `cycles`. -/
def lookup_security_types (request_id : Str) (cycles : List (List Str)) :
    Option (List (List Str)) :=
  run_cycles request_id [] cycles

/-- The flat list of messages processed before the first sentinel: the inner
loop breaks at the sentinel and the outer loop then stops, so exactly the
messages strictly before the first sentinel occurrence, in delivery order,
are normalized. -/
def msgs_before_sentinel (cycles : List (List Str)) : List Str :=
  (cycles.flatten).takeWhile (fun m => !decide (m = SENTINEL))

/-! ## Helper lemmas about `pySplit` and `pyJoin` -/

theorem pySplit_ne_nil (sep : Char) (s : Str) : pySplit sep s ≠ [] := by
  induction s with
  | nil => simp [pySplit]
  | cons c cs ih =>
    simp only [pySplit]
    split
    · simp
    · cases h : pySplit sep cs with
      | nil => exact absurd h ih
      | cons r rs => simp [h]

theorem pySplit_cons_sep (sep : Char) (cs : Str) :
    pySplit sep (sep :: cs) = [] :: pySplit sep cs := by
  simp [pySplit]

theorem pySplit_cons_ne (sep c : Char) (cs : Str) (hc : ¬c = sep)
    (r : Str) (rs : List Str) (h : pySplit sep cs = r :: rs) :
    pySplit sep (c :: cs) = (c :: r) :: rs := by
  simp [pySplit, if_neg hc, h]

theorem pySplit_no_sep (sep : Char) (p : Str) (hp : sep ∉ p) :
    pySplit sep p = [p] := by
  induction p with
  | nil => rfl
  | cons c q ih =>
    have hc : ¬c = sep := fun h => hp (h ▸ List.mem_cons_self c q)
    have hq : sep ∉ q := fun h => hp (List.mem_cons_of_mem c h)
    simp [pySplit, if_neg hc, ih hq]

theorem pySplit_append_cons (sep : Char) (p rest : Str) (hp : sep ∉ p) :
    pySplit sep (p ++ sep :: rest) = p :: pySplit sep rest := by
  induction p with
  | nil => simp [pySplit]
  | cons c p ih =>
    have hc : ¬c = sep := by
      intro h
      exact hp (h ▸ List.mem_cons_self c p)
    have hp' : sep ∉ p := fun h => hp (List.mem_cons_of_mem c h)
    simp only [List.cons_append, pySplit, if_neg hc, List.append_eq, ih hp']

theorem pyJoin_roundtrip (sep : Char) (parts : List Str) (hne : parts ≠ [])
    (h : ∀ p ∈ parts, sep ∉ p) :
    pySplit sep (pyJoin sep parts) = parts := by
  induction parts with
  | nil => exact absurd rfl hne
  | cons p ps ih =>
    cases ps with
    | nil =>
      simp only [pyJoin]
      exact pySplit_no_sep sep p (h p (List.mem_cons_self p []))
    | cons p' ps' =>
      have hp : sep ∉ p := h p (List.mem_cons_self p _)
      have hrest : ∀ x ∈ p' :: ps', sep ∉ x :=
        fun x hx => h x (List.mem_cons_of_mem p hx)
      have hunfold : pyJoin sep (p :: p' :: ps') =
          p ++ sep :: pyJoin sep (p' :: ps') := rfl
      rw [hunfold, pySplit_append_cons sep p _ hp, ih (by simp) hrest]

theorem pySplit_concat_sep (sep : Char) (s : Str) :
    pySplit sep (s ++ [sep]) = pySplit sep s ++ [[]] := by
  induction s with
  | nil => simp [pySplit]
  | cons c cs ih =>
    by_cases hc : c = sep
    · subst hc
      rw [List.cons_append, pySplit_cons_sep, pySplit_cons_sep, ih,
        List.cons_append]
    · cases h : pySplit sep cs with
      | nil => exact absurd h (pySplit_ne_nil sep cs)
      | cons r rs =>
        rw [List.cons_append,
          pySplit_cons_ne sep c _ hc r (rs ++ [[]])
            (by rw [ih, h, List.cons_append]),
          pySplit_cons_ne sep c cs hc r rs h, List.cons_append]

theorem getLast?_cons_of_ne_nil {α : Type} (a : α) (l : List α) (h : l ≠ []) :
    (a :: l).getLast? = l.getLast? := by
  cases l with
  | nil => exact absurd rfl h
  | cons b t => rfl

theorem pySplit_getLast_ne_nil (sep : Char) (s : Str) (hne : s ≠ [])
    (hlast : s.getLast? ≠ some sep) :
    (pySplit sep s).getLast? ≠ some ([] : Str) := by
  induction s with
  | nil => exact absurd rfl hne
  | cons c cs ih =>
    cases cs with
    | nil =>
      have hc : ¬c = sep := by
        intro h
        exact hlast (by simp [h, List.getLast?])
      simp [pySplit, if_neg hc]
    | cons c' cs' =>
      have hlast' : (c' :: cs').getLast? ≠ some sep := by
        rwa [getLast?_cons_of_ne_nil c (c' :: cs') (by simp)] at hlast
      have ih' := ih (by simp) hlast'
      by_cases hc : c = sep
      · subst hc
        rw [pySplit, if_pos rfl,
          getLast?_cons_of_ne_nil _ _ (pySplit_ne_nil c (c' :: cs'))]
        exact ih'
      · rw [pySplit, if_neg hc]
        cases h : pySplit sep (c' :: cs') with
        | nil => exact absurd h (pySplit_ne_nil sep _)
        | cons r rs =>
          rw [h] at ih'
          cases rs with
          | nil => simp
          | cons r' rs' =>
            rw [getLast?_cons_of_ne_nil _ _ (by simp),
              ← getLast?_cons_of_ne_nil r (r' :: rs') (by simp)]
            exact ih'

/-! ## Claim C1 -/

/-- C1, counterexample: the cycle holding the raw row `"Q,AAPL,100,99,101,\r"`
is not a system-message cycle, yet `process_stream` projects the row to
`["AAPL","100","99","101"]` and not to the claimed `["100","99","101"]`: the
code drops only the leading `"Q"` tag, not the symbol token. -/
theorem C1_counterexample :
    check_system_messages ["Q,AAPL,100,99,101,\r".data] = false ∧
    process_stream ["Q,AAPL,100,99,101,\r".data] =
      [["AAPL".data, "100".data, "99".data, "101".data]] ∧
    ["AAPL".data, "100".data, "99".data, "101".data] ≠
      ["100".data, "99".data, "101".data] := by decide

/-- C1, amended: a streaming message whose comma tokens are `"Q" :: fields`
is projected by deleting the trailing token and the leading `"Q"` tag only,
yielding `fields` without its last token; the symbol token is retained as the
first row entry. -/
theorem C1_projection (fields : List Str) (h : ∀ p ∈ fields, ',' ∉ p) :
    process_stream [pyJoin ',' ("Q".data :: fields)] = [fields.dropLast] := by
  have hall : ∀ p ∈ "Q".data :: fields, ',' ∉ p := by
    intro p hp
    rcases List.mem_cons.mp hp with rfl | hp'
    · decide
    · exact h p hp'
  have hsplit : pySplit ',' (pyJoin ',' ("Q".data :: fields)) =
      "Q".data :: fields :=
    pyJoin_roundtrip ',' _ (by simp) hall
  simp only [process_stream, List.filterMap, tok0, hsplit]
  cases fields with
  | nil => simp
  | cons f fs => simp

/-- C1, witness for the amended theorem at the claim's concrete row. -/
theorem C1_projection_witness :
    process_stream [pyJoin ','
      ["Q".data, "AAPL".data, "100".data, "99".data, "101".data, "\r".data]] =
      [["AAPL".data, "100".data, "99".data, "101".data]] :=
  C1_projection ["AAPL".data, "100".data, "99".data, "101".data, "\r".data]
    (by decide)

/-! ## Claim C2 -/

/-- C2: when all entries of the timestamp queue are less than one second old,
the backward walk of `check_requests` finds no stale entry, so the queue is
not truncated and the 1-second sleep branch never runs — in particular, 50
admissions within 200 ms followed by an immediate 51st call return at once,
contradicting the claimed (and documented) blocking behavior. -/
theorem check_requests_saturated_no_sleep (q : List Int) (now : Int)
    (hlen : q.length = REQUEST_LIMIT) (hfresh : ∀ t ∈ q, now - t < 1000) :
    check_requests q now = (q ++ [now], false) := by
  have hwalk : ∀ l : List Int, (∀ t ∈ l, now - t < 1000) → walkIdx now l = none := by
    intro l hl
    induction l with
    | nil => rfl
    | cons t ts ih =>
      have ht := hl t (List.mem_cons_self t ts)
      have hts := ih (fun x hx => hl x (List.mem_cons_of_mem t hx))
      show (if 1000 ≤ now - t then some 0 else (walkIdx now ts).map (· + 1)) = none
      rw [if_neg (show ¬(1000 : Int) ≤ now - t by omega), hts]
      rfl
  have h1 : ∀ t ∈ q.reverse.take (q.length - 1), now - t < 1000 := by
    intro t ht
    exact hfresh t (List.mem_reverse.mp (List.mem_of_mem_take ht))
  simp [check_requests, hwalk _ h1]

/-- C2, witness: a queue of 50 timestamps all taken at time 0 ms, with the
51st admission at time 200 ms, returns immediately with no sleep. -/
theorem check_requests_saturated_no_sleep_witness :
    check_requests (List.replicate 50 (0 : Int)) 200 =
      (List.replicate 50 (0 : Int) ++ [200], false) :=
  check_requests_saturated_no_sleep _ _ (by decide) (by decide)

/-! ## Claim C3 -/

theorem lastErrorIdx_of_no_error (l : List Str)
    (h : ∀ m ∈ l, tok0 m ≠ "E".data) : lastErrorIdx l = none := by
  induction l with
  | nil => rfl
  | cons m ms ih =>
    have hm := h m (List.mem_cons_self m ms)
    have hms := ih (fun x hx => h x (List.mem_cons_of_mem m hx))
    simp [lastErrorIdx, hms, if_neg hm]

theorem lastErrorIdx_append_of_some (l r : List Str) (j : Nat)
    (h : lastErrorIdx r = some j) :
    lastErrorIdx (l ++ r) = some (l.length + j) := by
  induction l with
  | nil => simpa using h
  | cons m ms ih =>
    have : lastErrorIdx (m :: (ms ++ r)) =
        match lastErrorIdx (ms ++ r) with
        | some i => some (i + 1)
        | none => if tok0 m = "E".data then some 0 else none := rfl
    rw [List.cons_append, this, ih]
    simp [Nat.add_assoc, Nat.add_comm j 1, Nat.add_left_comm]

theorem eraseIdx_append_middle {α : Type} (l1 l2 : List α) (e : α) :
    (l1 ++ e :: l2).eraseIdx l1.length = l1 ++ l2 := by
  induction l1 with
  | nil => rfl
  | cons a t ih => simp [List.eraseIdx, ih]

/-- C3, counterexample: a cycle with two error-tagged messages keeps the
first of them — `check_error` records only the last matching index and
deletes a single message, so the removal does not apply to each error-tagged
message. -/
theorem C3_counterexample :
    check_error ["E,a".data, "E,b".data, "S,X".data] =
      some ["E,a".data, "S,X".data] ∧
    tok0 "E,a".data = "E".data := by decide

/-- C3, amended: every error-tagged message is logged, but only the last one
is removed from the sequence returned to callers: when the cycle is
`l1 ++ e :: l2` with `e` error-tagged, no error-tagged message in `l2`, and
every error-tagged message well formed (a second token exists, so the logging
statement does not raise), the result is `l1 ++ l2`.  In particular a cycle
with a single error-tagged message, such as the claim's example, drops
exactly that message. -/
theorem check_error_removes_last (l1 l2 : List Str) (e : Str)
    (he : tok0 e = "E".data) (he2 : 2 ≤ tokLen e)
    (h1 : ∀ m ∈ l1, tok0 m = "E".data → 2 ≤ tokLen m)
    (h2 : ∀ m ∈ l2, tok0 m ≠ "E".data) :
    check_error (l1 ++ e :: l2) = some (l1 ++ l2) := by
  have hbare : hasBareError (l1 ++ e :: l2) = false := by
    simp only [hasBareError, List.any_eq_false]
    intro m hm
    rcases List.mem_append.mp hm with hml | hmr
    · intro hand
      have h0 : tok0 m = "E".data := by
        have := of_decide_eq_true (Bool.and_elim_left hand)
        exact this
      have hlen : tokLen m = 1 := by
        have := of_decide_eq_true (Bool.and_elim_right hand)
        exact this
      have := h1 m hml h0
      omega
    · rcases List.mem_cons.mp hmr with rfl | hml2
      · intro hand
        have hlen : tokLen m = 1 := by
          have := of_decide_eq_true (Bool.and_elim_right hand)
          exact this
        omega
      · intro hand
        have h0 : tok0 m = "E".data := by
          have := of_decide_eq_true (Bool.and_elim_left hand)
          exact this
        exact h2 m hml2 h0
  have hidx : lastErrorIdx (l1 ++ e :: l2) = some l1.length := by
    have hl2 : lastErrorIdx l2 = none := lastErrorIdx_of_no_error l2 h2
    have hcons : lastErrorIdx (e :: l2) = some 0 := by
      simp [lastErrorIdx, hl2, if_pos he]
    have := lastErrorIdx_append_of_some l1 (e :: l2) 0 hcons
    simpa using this
  rw [check_error, if_neg (by rw [hbare]; exact Bool.false_ne_true), hidx]
  exact congrArg some (eraseIdx_append_middle l1 l2 e)

/-- C3, witness for the amended theorem: the claim's example cycle
`["S,X", "E,bad thing", "S,Y"]` yields `["S,X", "S,Y"]`. -/
theorem check_error_removes_last_witness :
    check_error ["S,X".data, "E,bad thing".data, "S,Y".data] =
      some (["S,X".data] ++ ["S,Y".data]) :=
  check_error_removes_last ["S,X".data] ["S,Y".data] "E,bad thing".data
    (by decide) (by decide) (by decide) (by decide)

/-! ## Claim C4 -/

theorem check_startup_go_iff (messages : List Str) :
    ∀ (acc : Bool) (b : Bool), check_startup_go acc messages = some b →
      (b = true ↔ acc = true ∨
        ∃ m ∈ messages, tok1? m = some "SERVER CONNECTED".data) := by
  induction messages with
  | nil =>
    intro acc b h
    simp only [check_startup_go, Option.some.injEq] at h
    subst h
    simp
  | cons m ms ih =>
    intro acc b h
    cases ht : tok1? m with
    | none => simp [check_startup_go, ht] at h
    | some t =>
      have h' : check_startup_go
          (acc || (decide (t ∈ expected_messages) &&
            decide (t = "SERVER CONNECTED".data))) ms = some b := by
        simpa [check_startup_go, ht] using h
      have := ih _ b h'
      rw [this]
      constructor
      · rintro (hor | hex)
        · rcases Bool.or_eq_true_iff.mp hor with ha | hand
          · exact Or.inl ha
          · refine Or.inr ⟨m, List.mem_cons_self m ms, ?_⟩
            have : t = "SERVER CONNECTED".data :=
              of_decide_eq_true (Bool.and_elim_right hand)
            rw [ht, this]
        · rcases hex with ⟨x, hx, hxt⟩
          exact Or.inr ⟨x, List.mem_cons_of_mem m hx, hxt⟩
      · rintro (ha | ⟨x, hx, hxt⟩)
        · exact Or.inl (by simp [ha])
        · rcases List.mem_cons.mp hx with rfl | hx'
          · rw [ht] at hxt
            have htt : t = "SERVER CONNECTED".data := by
              injection hxt
            refine Or.inl ?_
            have hb : (decide (t ∈ expected_messages) &&
                decide (t = "SERVER CONNECTED".data)) = true := by
              rw [htt]
              decide
            simp [hb]
          · exact Or.inr ⟨x, hx', hxt⟩

/-- C4: when `check_startup` completes without an `IndexError`, it reports
the session connected exactly when some message's second comma token equals
`"SERVER CONNECTED"`; the other expected startup tokens (`KEYOK`, `CUST`,
`IP`, `KEY`) never confer connected status on their own. -/
theorem check_startup_connected_iff (messages : List Str) (b : Bool)
    (h : check_startup messages = some b) :
    b = true ↔ ∃ m ∈ messages, tok1? m = some "SERVER CONNECTED".data := by
  have := check_startup_go_iff messages false b h
  simpa using this

/-- C4, witness: a five-message handshake cycle containing
`"S,SERVER CONNECTED"` is reported connected by `check_startup`. -/
theorem check_startup_connected_iff_witness :
    check_startup ["S,KEYOK".data, "S,CUST,real_time".data, "S,IP,1.2".data,
      "S,SERVER CONNECTED".data, "S,KEY,abc".data] = some true ∧
    (true = true ↔ ∃ m ∈ ["S,KEYOK".data, "S,CUST,real_time".data,
      "S,IP,1.2".data, "S,SERVER CONNECTED".data, "S,KEY,abc".data],
      tok1? m = some "SERVER CONNECTED".data) :=
  ⟨by decide,
   check_startup_connected_iff ["S,KEYOK".data, "S,CUST,real_time".data,
     "S,IP,1.2".data, "S,SERVER CONNECTED".data, "S,KEY,abc".data] true
     (by decide)⟩

/-! ## Claim C6 -/

theorem walkIdx_append_fresh (now : Int) (a b : List Int)
    (ha : ∀ x ∈ a, now - x < 1000) :
    walkIdx now (a ++ b) = (walkIdx now b).map (· + a.length) := by
  induction a with
  | nil =>
    cases h : walkIdx now b <;> simp [h]
  | cons x xs ih =>
    have hx := ha x (List.mem_cons_self x xs)
    have ih' := ih (fun y hy => ha y (List.mem_cons_of_mem x hy))
    show (if 1000 ≤ now - x then some 0
        else (walkIdx now (xs ++ b)).map (· + 1)) =
      (walkIdx now b).map (· + (xs.length + 1))
    rw [if_neg (show ¬(1000 : Int) ≤ now - x by omega), ih']
    cases h : walkIdx now b with
    | none => rfl
    | some j => simp [Nat.add_assoc]

/-- C6, counterexample: calling the pacer with queue `[0, 500, 2000]` (ms) at
time 2300 ms makes the backward walk find the stale entry 500 (1.8 s old) and
truncate, yet the retained queue `[500, 2000, 2300]` still contains 500 — an
entry older than the 1-second boundary that is not the newly appended
timestamp, contradicting the claimed invariant. -/
theorem C6_counterexample :
    walkIdx 2300 (([0, 500, 2000] : List Int).reverse.take 2) = some 1 ∧
    check_requests [0, 500, 2000] 2300 = ([500, 2000, 2300], false) ∧
    1000 ≤ (2300 : Int) - 500 := by decide

/-- C6, amended: after a call in which the backward walk found an entry at
least one second old (with at least one older entry before it in the queue,
so the walk range covers it), the retained queue is that found entry itself,
followed by the strictly fresher entries after it, followed by the newly
appended timestamp — exactly one entry at least one second old may remain. -/
theorem check_requests_truncation (l1 l2 : List Int) (t now : Int)
    (h1 : l1 ≠ []) (ht : 1000 ≤ now - t) (h2 : ∀ x ∈ l2, now - x < 1000) :
    check_requests (l1 ++ t :: l2) now =
      (t :: l2 ++ [now], decide (REQUEST_LIMIT ≤ l2.length + 1)) := by
  have hl1 : 1 ≤ l1.length := by
    cases l1 with
    | nil => exact absurd rfl h1
    | cons a b => simp
  have hlen : (l1 ++ t :: l2).length = l1.length + l2.length + 1 := by
    simp [Nat.add_comm, Nat.add_left_comm]
    omega
  have hrev : (l1 ++ t :: l2).reverse = (l2.reverse ++ [t]) ++ l1.reverse := by
    simp
  have htake : ((l2.reverse ++ [t]) ++ l1.reverse).take (l1.length + l2.length) =
      (l2.reverse ++ [t]) ++ l1.reverse.take (l1.length - 1) := by
    have hlen2 : (l2.reverse ++ [t]).length = l2.length + 1 := by simp
    have harith : l1.length + l2.length - (l2.length + 1) = l1.length - 1 := by
      omega
    rw [List.take_append_eq_append_take,
      List.take_of_length_le (by rw [hlen2]; omega), hlen2, harith]
  have hwalk : walkIdx now ((l2.reverse ++ [t]) ++
      l1.reverse.take (l1.length - 1)) = some l2.length := by
    have hfresh : ∀ x ∈ l2.reverse, now - x < 1000 :=
      fun x hx => h2 x (List.mem_reverse.mp hx)
    rw [List.append_assoc, walkIdx_append_fresh now l2.reverse _ hfresh]
    have : walkIdx now ([t] ++ l1.reverse.take (l1.length - 1)) = some 0 := by
      show (if 1000 ≤ now - t then some 0
          else (walkIdx now (l1.reverse.take (l1.length - 1))).map (· + 1)) =
        some 0
      rw [if_pos ht]
    rw [this]
    simp [List.length_reverse]
  show (match walkIdx now
      ((l1 ++ t :: l2).reverse.take ((l1 ++ t :: l2).length - 1)) with
    | none => ((l1 ++ t :: l2) ++ [now], false)
    | some j => ((l1 ++ t :: l2).drop ((l1 ++ t :: l2).length - (j + 1)) ++ [now],
        decide (REQUEST_LIMIT ≤ j + 1))) =
    (t :: l2 ++ [now], decide (REQUEST_LIMIT ≤ l2.length + 1))
  rw [hrev, hlen]
  have hsub : l1.length + l2.length + 1 - 1 = l1.length + l2.length := by omega
  rw [hsub, htake, hwalk]
  have hdrop : (l1 ++ t :: l2).drop (l1.length + l2.length + 1 - (l2.length + 1)) =
      t :: l2 := by
    have : l1.length + l2.length + 1 - (l2.length + 1) = l1.length := by omega
    rw [this]
    exact List.drop_left l1 (t :: l2)
  show ((l1 ++ t :: l2).drop (l1.length + l2.length + 1 - (l2.length + 1)) ++
      [now], decide (REQUEST_LIMIT ≤ l2.length + 1)) =
    (t :: l2 ++ [now], decide (REQUEST_LIMIT ≤ l2.length + 1))
  rw [hdrop]

/-- C6, witness for the amended theorem: queue `[0, 1000, 2000]` at time
2300 ms retains the found stale entry 1000 together with the fresh entry 2000
and the appended 2300. -/
theorem check_requests_truncation_witness :
    check_requests [0, 1000, 2000] 2300 =
      ((1000 : Int) :: [2000] ++ [2300],
        decide (REQUEST_LIMIT ≤ ([2000] : List Int).length + 1)) :=
  check_requests_truncation [0] [2000] 1000 2300 (by decide) (by decide)
    (by decide)

/-! ## Claim C8 -/

/-- C8, counterexample: the single-chunk byte stream `"a\n\n"` ends exactly
in the newline delimiter, yet the frame reader returns `["a", ""]`, whose
final message is empty — only one trailing empty element is dropped. -/
theorem C8_counterexample :
    ("a\n\n".data).getLast? = some '\n' ∧
    read_frame ["a\n\n".data] = some ["a".data, []] ∧
    (["a".data, ([] : Str)]).getLast? = some ([] : Str) := by decide

/-- C8, amended: the reader accumulates chunks until the buffer ends in the
newline delimiter (any accepted buffer is empty or newline-terminated, and is
the concatenation of a prefix of the chunk stream), splits the buffer on
newline, and drops exactly one final empty element; a buffer consisting of
nonempty content that does not itself end in the delimiter followed by a
single terminal delimiter yields no trailing empty message. -/
theorem read_frame_amended :
    (∀ (c : Str) (cs : List Str) (buf : Str), recv_accumulate c cs = some buf →
        (buf = [] ∨ buf.getLast? = some '\n') ∧
        ∃ k, k ≤ cs.length ∧ buf = c ++ (cs.take k).flatten) ∧
    (∀ s : Str, s ≠ [] → s.getLast? ≠ some '\n' →
        frame_split (s ++ ['\n']) = pySplit '\n' s ∧
        (pySplit '\n' s).getLast? ≠ some ([] : Str)) := by
  constructor
  · intro c cs
    induction cs generalizing c with
    | nil =>
      intro buf h
      by_cases hp : c = [] ∨ c.getLast? = some '\n'
      · rw [recv_accumulate, if_pos hp] at h
        injection h with h
        subst h
        exact ⟨hp, 0, by simp⟩
      · rw [recv_accumulate, if_neg hp] at h
        exact absurd h (by simp)
    | cons c' cs' ih =>
      intro buf h
      by_cases hp : c = [] ∨ c.getLast? = some '\n'
      · rw [recv_accumulate, if_pos hp] at h
        injection h with h
        subst h
        exact ⟨hp, 0, by simp⟩
      · rw [recv_accumulate, if_neg hp] at h
        obtain ⟨hend, k, hk, hbuf⟩ := ih (c ++ c') buf h
        refine ⟨hend, k + 1, by simpa using hk, ?_⟩
        rw [hbuf]
        simp [List.append_assoc]
  · intro s hne hlast
    have hsplit : pySplit '\n' (s ++ ['\n']) = pySplit '\n' s ++ [[]] :=
      pySplit_concat_sep '\n' s
    constructor
    · rw [frame_split, hsplit]
      simp
    · exact pySplit_getLast_ne_nil '\n' s hne hlast

/-- C8, witness for the amended theorem: the buffer `"S,X\nS,Y\n"` is
accepted after two chunk reads (a mid-message chunk boundary), is
newline-terminated, and splits into `["S,X", "S,Y"]` with no trailing empty
message. -/
theorem read_frame_amended_witness :
    ((("S,X\nS,Y\n".data : Str) = [] ∨
        ("S,X\nS,Y\n".data).getLast? = some '\n') ∧
      ∃ k, k ≤ ([",Y\n".data] : List Str).length ∧
        "S,X\nS,Y\n".data = "S,X\nS".data ++ (([",Y\n".data]).take k).flatten) ∧
    (frame_split ("S,X\nS,Y".data ++ ['\n']) = pySplit '\n' "S,X\nS,Y".data ∧
      (pySplit '\n' "S,X\nS,Y".data).getLast? ≠ some ([] : Str)) :=
  ⟨read_frame_amended.1 "S,X\nS".data [",Y\n".data] "S,X\nS,Y\n".data
      (by decide),
   read_frame_amended.2 "S,X\nS,Y".data (by decide) (by decide)⟩

/-! ## Claims C5 and C7: pagination -/

theorem run_cycle_no_sentinel (rid : Str) (cyc : List Str)
    (hns : SENTINEL ∉ cyc) (hok : ∀ m ∈ cyc, norm_row rid m ≠ none) :
    ∀ acc, run_cycle rid acc cyc =
      some (acc ++ cyc.filterMap (norm_rowD rid), true) := by
  induction cyc with
  | nil =>
    intro acc
    simp [run_cycle]
  | cons m ms ih =>
    intro acc
    have hm : ¬m = SENTINEL := fun h => hns (h ▸ List.mem_cons_self m ms)
    have ihm := ih (fun h => hns (List.mem_cons_of_mem m h))
      (fun x hx => hok x (List.mem_cons_of_mem m hx))
    have hD : norm_rowD rid m = (norm_row rid m).bind id := rfl
    show (if m = SENTINEL then some (acc, false)
      else
        match norm_row rid m with
        | none => none
        | some none => run_cycle rid acc ms
        | some (some row) => run_cycle rid (acc ++ [row]) ms) =
      some (acc ++ (m :: ms).filterMap (norm_rowD rid), true)
    rw [if_neg hm]
    cases hnr : norm_row rid m with
    | none => exact absurd hnr (hok m (List.mem_cons_self m ms))
    | some o =>
      cases o with
      | none =>
        have hfm : norm_rowD rid m = none := by rw [hD, hnr]; rfl
        show run_cycle rid acc ms =
          some (acc ++ (m :: ms).filterMap (norm_rowD rid), true)
        rw [List.filterMap_cons_none hfm, ihm acc]
      | some row =>
        have hfm : norm_rowD rid m = some row := by rw [hD, hnr]; rfl
        show run_cycle rid (acc ++ [row]) ms =
          some (acc ++ (m :: ms).filterMap (norm_rowD rid), true)
        rw [List.filterMap_cons_some hfm, ihm (acc ++ [row])]
        simp

theorem run_cycle_with_sentinel (rid : Str) (cyc : List Str)
    (hs : SENTINEL ∈ cyc)
    (hok : ∀ m ∈ cyc.takeWhile (fun m => !decide (m = SENTINEL)),
      norm_row rid m ≠ none) :
    ∀ acc, run_cycle rid acc cyc =
      some (acc ++ (cyc.takeWhile (fun m => !decide (m = SENTINEL))).filterMap
        (norm_rowD rid), false) := by
  induction cyc with
  | nil => exact absurd hs (List.not_mem_nil SENTINEL)
  | cons m ms ih =>
    intro acc
    by_cases hm : m = SENTINEL
    · subst hm
      have htw : (SENTINEL :: ms).takeWhile
          (fun m => !decide (m = SENTINEL)) = [] := by
        simp [List.takeWhile_cons]
      have hrun : run_cycle rid acc (SENTINEL :: ms) = some (acc, false) := by
        show (if SENTINEL = SENTINEL then some (acc, false)
          else
            match norm_row rid SENTINEL with
            | none => none
            | some none => run_cycle rid acc ms
            | some (some row) => run_cycle rid (acc ++ [row]) ms) =
          some (acc, false)
        rw [if_pos rfl]
      rw [hrun, htw]
      simp
    · have hp : (fun m => !decide (m = SENTINEL)) m = true := by
        simp [hm]
      have htw : (m :: ms).takeWhile (fun m => !decide (m = SENTINEL)) =
          m :: ms.takeWhile (fun m => !decide (m = SENTINEL)) := by
        simp [List.takeWhile_cons, hm]
      have hs' : SENTINEL ∈ ms := by
        rcases List.mem_cons.mp hs with h | h
        · exact absurd h.symm hm
        · exact h
      have hok' : ∀ x ∈ ms.takeWhile (fun m => !decide (m = SENTINEL)),
          norm_row rid x ≠ none := by
        intro x hx
        apply hok
        rw [htw]
        exact List.mem_cons_of_mem m hx
      have hokm : norm_row rid m ≠ none := by
        apply hok
        rw [htw]
        exact List.mem_cons_self m _
      have ihm := ih hs' hok'
      have hD : norm_rowD rid m = (norm_row rid m).bind id := rfl
      show (if m = SENTINEL then some (acc, false)
        else
          match norm_row rid m with
          | none => none
          | some none => run_cycle rid acc ms
          | some (some row) => run_cycle rid (acc ++ [row]) ms) =
        some (acc ++ ((m :: ms).takeWhile
          (fun m => !decide (m = SENTINEL))).filterMap (norm_rowD rid), false)
      rw [if_neg hm, htw]
      cases hnr : norm_row rid m with
      | none => exact absurd hnr hokm
      | some o =>
        cases o with
        | none =>
          have hfm : norm_rowD rid m = none := by rw [hD, hnr]; rfl
          show run_cycle rid acc ms =
            some (acc ++ (m :: ms.takeWhile
              (fun m => !decide (m = SENTINEL))).filterMap (norm_rowD rid),
              false)
          rw [List.filterMap_cons_none hfm, ihm acc]
        | some row =>
          have hfm : norm_rowD rid m = some row := by rw [hD, hnr]; rfl
          show run_cycle rid (acc ++ [row]) ms =
            some (acc ++ (m :: ms.takeWhile
              (fun m => !decide (m = SENTINEL))).filterMap (norm_rowD rid),
              false)
          rw [List.filterMap_cons_some hfm, ihm (acc ++ [row])]
          simp

theorem takeWhile_sentinel_append_of_mem (l r : List Str)
    (hs : SENTINEL ∈ l) :
    (l ++ r).takeWhile (fun m => !decide (m = SENTINEL)) =
      l.takeWhile (fun m => !decide (m = SENTINEL)) := by
  induction l with
  | nil => exact absurd hs (List.not_mem_nil SENTINEL)
  | cons a t ih =>
    by_cases ha : a = SENTINEL
    · subst ha
      simp [List.takeWhile_cons]
    · have hs' : SENTINEL ∈ t := by
        rcases List.mem_cons.mp hs with h | h
        · exact absurd h.symm ha
        · exact h
      simp [List.takeWhile_cons, ha, ih hs']

theorem takeWhile_sentinel_append_of_not_mem (l r : List Str)
    (hns : SENTINEL ∉ l) :
    (l ++ r).takeWhile (fun m => !decide (m = SENTINEL)) =
      l ++ r.takeWhile (fun m => !decide (m = SENTINEL)) := by
  induction l with
  | nil => rfl
  | cons a t ih =>
    have ha : ¬a = SENTINEL := fun h => hns (h ▸ List.mem_cons_self a t)
    have ht : SENTINEL ∉ t := fun h => hns (List.mem_cons_of_mem a h)
    simp [List.takeWhile_cons, ha, ih ht]

theorem run_cycles_with_sentinel (rid : Str) (cycles : List (List Str))
    (hs : SENTINEL ∈ cycles.flatten)
    (hok : ∀ m ∈ msgs_before_sentinel cycles, norm_row rid m ≠ none) :
    ∀ acc, run_cycles rid acc cycles =
      some (acc ++ (msgs_before_sentinel cycles).filterMap (norm_rowD rid)) := by
  induction cycles with
  | nil => exact absurd (by simpa using hs) (List.not_mem_nil SENTINEL)
  | cons cyc rest ih =>
    intro acc
    have hflat : (cyc :: rest).flatten = cyc ++ rest.flatten := rfl
    by_cases hc : SENTINEL ∈ cyc
    · have hmb : msgs_before_sentinel (cyc :: rest) =
          cyc.takeWhile (fun m => !decide (m = SENTINEL)) := by
        rw [msgs_before_sentinel, hflat,
          takeWhile_sentinel_append_of_mem cyc rest.flatten hc]
      have hok1 : ∀ m ∈ cyc.takeWhile (fun m => !decide (m = SENTINEL)),
          norm_row rid m ≠ none := by
        intro m hm
        exact hok m (by rw [hmb]; exact hm)
      show (match run_cycle rid acc cyc with
        | none => none
        | some (acc', true) => run_cycles rid acc' rest
        | some (acc', false) => some acc') =
        some (acc ++ (msgs_before_sentinel (cyc :: rest)).filterMap
          (norm_rowD rid))
      rw [run_cycle_with_sentinel rid cyc hc hok1 acc, hmb]
    · have hsr : SENTINEL ∈ rest.flatten := by
        rw [hflat] at hs
        rcases List.mem_append.mp hs with h | h
        · exact absurd h hc
        · exact h
      have hmb : msgs_before_sentinel (cyc :: rest) =
          cyc ++ msgs_before_sentinel rest := by
        rw [msgs_before_sentinel, hflat,
          takeWhile_sentinel_append_of_not_mem cyc rest.flatten hc]
        rfl
      have hokc : ∀ m ∈ cyc, norm_row rid m ≠ none := by
        intro m hm
        exact hok m (by rw [hmb]; exact List.mem_append_left _ hm)
      have hokr : ∀ m ∈ msgs_before_sentinel rest, norm_row rid m ≠ none := by
        intro m hm
        exact hok m (by rw [hmb]; exact List.mem_append_right _ hm)
      show (match run_cycle rid acc cyc with
        | none => none
        | some (acc', true) => run_cycles rid acc' rest
        | some (acc', false) => some acc') =
        some (acc ++ (msgs_before_sentinel (cyc :: rest)).filterMap
          (norm_rowD rid))
      rw [run_cycle_no_sentinel rid cyc hc hokc acc]
      show run_cycles rid (acc ++ cyc.filterMap (norm_rowD rid)) rest =
        some (acc ++ (msgs_before_sentinel (cyc :: rest)).filterMap
          (norm_rowD rid))
      rw [ih hsr hokr, hmb, List.filterMap_append, List.append_assoc]

theorem run_cycles_no_sentinel (rid : Str) (cycles : List (List Str))
    (hns : SENTINEL ∉ cycles.flatten)
    (hok : ∀ m ∈ cycles.flatten, norm_row rid m ≠ none) :
    ∀ acc, run_cycles rid acc cycles =
      some (acc ++ (cycles.flatten).filterMap (norm_rowD rid)) := by
  induction cycles with
  | nil =>
    intro acc
    simp [run_cycles]
  | cons cyc rest ih =>
    intro acc
    have hflat : (cyc :: rest).flatten = cyc ++ rest.flatten := rfl
    have hc : SENTINEL ∉ cyc := fun h =>
      hns (by rw [hflat]; exact List.mem_append_left _ h)
    have hr : SENTINEL ∉ rest.flatten := fun h =>
      hns (by rw [hflat]; exact List.mem_append_right _ h)
    have hokc : ∀ m ∈ cyc, norm_row rid m ≠ none := fun m hm =>
      hok m (by rw [hflat]; exact List.mem_append_left _ hm)
    have hokr : ∀ m ∈ rest.flatten, norm_row rid m ≠ none := fun m hm =>
      hok m (by rw [hflat]; exact List.mem_append_right _ hm)
    show (match run_cycle rid acc cyc with
      | none => none
      | some (acc', true) => run_cycles rid acc' rest
      | some (acc', false) => some acc') =
      some (acc ++ ((cyc :: rest).flatten).filterMap (norm_rowD rid))
    rw [run_cycle_no_sentinel rid cyc hc hokc acc]
    show run_cycles rid (acc ++ cyc.filterMap (norm_rowD rid)) rest =
      some (acc ++ ((cyc :: rest).flatten).filterMap (norm_rowD rid))
    rw [ih hr hokr, hflat, List.filterMap_append, List.append_assoc]

/-- C5: when some cycle carries the sentinel `"!ENDMSG!,\r"` and every
well-formed message before it normalizes without an `IndexError`,
accumulation ends at the first sentinel occurrence and the result is exactly
the normalized rows of the messages preceding it: empty messages skipped, a
trailing lone `"\r"` token dropped, a leading token dropped only when it
exactly equals the caller-supplied request id, and a leading `"LS"` row-type
marker dropped. -/
theorem lookup_security_types_rows (rid : Str) (cycles : List (List Str))
    (hs : SENTINEL ∈ cycles.flatten)
    (hok : ∀ m ∈ msgs_before_sentinel cycles, norm_row rid m ≠ none) :
    lookup_security_types rid cycles =
      some ((msgs_before_sentinel cycles).filterMap (norm_rowD rid)) := by
  have := run_cycles_with_sentinel rid cycles hs hok []
  simpa [lookup_security_types] using this

/-- C5, witness: with request id `"1"`, the cycles
`[["1,LS,8,FUTURE,Future,\r", ""], ["!ENDMSG!,\r", "junk"]]` accumulate
exactly the single normalized row `["8", "FUTURE", "Future"]`; the empty
message is skipped and nothing after the sentinel is read. -/
theorem lookup_security_types_rows_witness :
    lookup_security_types "1".data
      [["1,LS,8,FUTURE,Future,\r".data, "".data],
        ["!ENDMSG!,\r".data, "junk".data]] =
      some [["8".data, "FUTURE".data, "Future".data]] :=
  lookup_security_types_rows "1".data
    [["1,LS,8,FUTURE,Future,\r".data, "".data],
      ["!ENDMSG!,\r".data, "junk".data]]
    (by decide) (by decide)

/-- C7, counterexample: a run that ends by observing the sentinel and a run
that ends by a read timeout (the cycle stream is exhausted before any
sentinel) return the very same value, so the incompleteness of the
timed-out result is not observable to the caller — it is only logged. -/
theorem C7_counterexample :
    lookup_security_types "".data [["LS,8,X,\r".data], [SENTINEL]] =
      lookup_security_types "".data [["LS,8,X,\r".data]] ∧
    SENTINEL ∈ ([["LS,8,X,\r".data], [SENTINEL]] : List (List Str)).flatten ∧
    SENTINEL ∉ ([["LS,8,X,\r".data]] : List (List Str)).flatten := by decide

/-- C7, amended: if a read cycle raises `ReadTimeout`, pagination halts
immediately and the rows accumulated so far are returned as the result; the
incompleteness is logged but is not otherwise observable to the caller — the
returned value is indistinguishable from that of a completed run. -/
theorem lookup_security_types_timeout (rid : Str) (cycles : List (List Str))
    (hns : SENTINEL ∉ cycles.flatten)
    (hok : ∀ m ∈ cycles.flatten, norm_row rid m ≠ none) :
    lookup_security_types rid cycles =
      some ((cycles.flatten).filterMap (norm_rowD rid)) := by
  have := run_cycles_no_sentinel rid cycles hns hok []
  simpa [lookup_security_types] using this

/-- C7, witness for the amended theorem: a run whose single cycle holds one
row and no sentinel times out on the next read and returns that row. -/
theorem lookup_security_types_timeout_witness :
    lookup_security_types "".data [["LS,8,X,\r".data]] =
      some [["8".data, "X".data]] :=
  lookup_security_types_timeout "".data [["LS,8,X,\r".data]]
    (by decide) (by decide)

/-! ## Claim C9 -/

theorem tok1?_exists_of_two_le (m : Str) (h : 2 ≤ tokLen m) :
    ∃ t, tok1? m = some t := by
  cases ht : (pySplit ',' m).get? 1 with
  | none =>
    have := List.get?_eq_none.mp ht
    rw [tokLen] at h
    omega
  | some t => exact ⟨t, ht⟩

theorem tok1?_eq_none_of_len_one (m : Str) (h : tokLen m = 1) :
    tok1? m = none := by
  rw [tok1?]
  apply List.get?_eq_none.mpr
  rw [tokLen] at h
  omega

theorem check_startup_go_isSome (messages : List Str)
    (h : ∀ m ∈ messages, 2 ≤ tokLen m) :
    ∀ acc, (check_startup_go acc messages).isSome := by
  induction messages with
  | nil =>
    intro acc
    rfl
  | cons m ms ih =>
    intro acc
    obtain ⟨t, ht⟩ := tok1?_exists_of_two_le m (h m (List.mem_cons_self m ms))
    show (match tok1? m with
      | none => none
      | some t => check_startup_go
          (acc || (decide (t ∈ expected_messages) &&
            decide (t = "SERVER CONNECTED".data))) ms).isSome
    rw [ht]
    exact ih (fun x hx => h x (List.mem_cons_of_mem m hx)) _

theorem check_startup_go_none (messages : List Str) (m : Str)
    (hm : m ∈ messages) (h1 : tokLen m = 1) :
    ∀ acc, check_startup_go acc messages = none := by
  induction messages with
  | nil => exact absurd hm (List.not_mem_nil m)
  | cons a ms ih =>
    intro acc
    show (match tok1? a with
      | none => none
      | some t => check_startup_go
          (acc || (decide (t ∈ expected_messages) &&
            decide (t = "SERVER CONNECTED".data))) ms) = none
    cases ht : tok1? a with
    | none => rfl
    | some t =>
      rcases List.mem_cons.mp hm with rfl | hm'
      · rw [tok1?_eq_none_of_len_one m h1] at ht
        exact absurd ht (by simp)
      · exact ih hm' _

theorem process_admin_isSome (messages : List Str)
    (h : ∀ m ∈ messages, 2 ≤ tokLen m) :
    (process_admin messages).isSome := by
  induction messages with
  | nil => rfl
  | cons m ms ih =>
    obtain ⟨t, ht⟩ := tok1?_exists_of_two_le m (h m (List.mem_cons_self m ms))
    have ih' := ih (fun x hx => h x (List.mem_cons_of_mem m hx))
    show (match (pySplit ',' m).get? 1 with
      | none => none
      | some t =>
        if t = "CURRENT PROTOCOL".data ∨ t = "CLIENTSTATS".data then
          process_admin ms
        else if t = "STATS".data then
          (process_admin ms).map (pySplit ',' m :: ·)
        else process_admin ms).isSome
    rw [show (pySplit ',' m).get? 1 = some t from ht]
    show (if t = "CURRENT PROTOCOL".data ∨ t = "CLIENTSTATS".data then
        process_admin ms
      else if t = "STATS".data then
        (process_admin ms).map (pySplit ',' m :: ·)
      else process_admin ms).isSome
    split
    · exact ih'
    · split
      · simpa using ih'
      · exact ih'

theorem process_admin_none (messages : List Str) (m : Str)
    (hm : m ∈ messages) (h1 : tokLen m = 1) :
    process_admin messages = none := by
  induction messages with
  | nil => exact absurd hm (List.not_mem_nil m)
  | cons a ms ih =>
    show (match (pySplit ',' a).get? 1 with
      | none => none
      | some t =>
        if t = "CURRENT PROTOCOL".data ∨ t = "CLIENTSTATS".data then
          process_admin ms
        else if t = "STATS".data then
          (process_admin ms).map (pySplit ',' a :: ·)
        else process_admin ms) = none
    cases ht : (pySplit ',' a).get? 1 with
    | none => rfl
    | some t =>
      rcases List.mem_cons.mp hm with rfl | hm'
      · rw [show (pySplit ',' m).get? 1 = tok1? m from rfl,
          tok1?_eq_none_of_len_one m h1] at ht
        exact absurd ht (by simp)
      · show (if t = "CURRENT PROTOCOL".data ∨ t = "CLIENTSTATS".data then
            process_admin ms
          else if t = "STATS".data then
            (process_admin ms).map (pySplit ',' a :: ·)
          else process_admin ms) = none
        rw [ih hm']
        split
        · rfl
        · split
          · rfl
          · rfl

theorem select_fieldnames_isSome (messages : List Str)
    (h : ∀ m ∈ messages, 2 ≤ tokLen m ∧
      (tok1? m = some "CURRENT UPDATE FIELDNAMES".data → 3 ≤ tokLen m)) :
    ∀ (fields : List Str) (symbol : Str),
      (select_fieldnames fields symbol messages).isSome := by
  induction messages with
  | nil =>
    intro fields symbol
    rfl
  | cons m ms ih =>
    intro fields symbol
    obtain ⟨t, ht⟩ :=
      tok1?_exists_of_two_le m (h m (List.mem_cons_self m ms)).1
    have ih' := ih (fun x hx => h x (List.mem_cons_of_mem m hx))
    show (match (pySplit ',' m).get? 1 with
      | none => none
      | some t =>
        if t ≠ "CURRENT UPDATE FIELDNAMES".data then
          select_fieldnames fields symbol ms
        else
          match (pySplit ',' m).get? 2 with
          | none => none
          | some sym => select_fieldnames ((pySplit ',' m).drop 2) sym ms).isSome
    rw [show (pySplit ',' m).get? 1 = some t from ht]
    show (if t ≠ "CURRENT UPDATE FIELDNAMES".data then
        select_fieldnames fields symbol ms
      else
        match (pySplit ',' m).get? 2 with
        | none => none
        | some sym =>
          select_fieldnames ((pySplit ',' m).drop 2) sym ms).isSome
    by_cases hteq : t = "CURRENT UPDATE FIELDNAMES".data
    · rw [if_neg (fun hn => hn hteq)]
      have h3 : 3 ≤ tokLen m :=
        (h m (List.mem_cons_self m ms)).2 (hteq ▸ ht)
      cases h2 : (pySplit ',' m).get? 2 with
      | none =>
        have := List.get?_eq_none.mp h2
        rw [tokLen] at h3
        omega
      | some sym => exact ih' _ sym
    · rw [if_pos hteq]
      exact ih' fields symbol

theorem select_fieldnames_none (messages : List Str) (m : Str)
    (hm : m ∈ messages) (h1 : tokLen m = 1) :
    ∀ (fields : List Str) (symbol : Str),
      select_fieldnames fields symbol messages = none := by
  induction messages with
  | nil => exact absurd hm (List.not_mem_nil m)
  | cons a ms ih =>
    intro fields symbol
    show (match (pySplit ',' a).get? 1 with
      | none => none
      | some t =>
        if t ≠ "CURRENT UPDATE FIELDNAMES".data then
          select_fieldnames fields symbol ms
        else
          match (pySplit ',' a).get? 2 with
          | none => none
          | some sym => select_fieldnames ((pySplit ',' a).drop 2) sym ms) = none
    cases ht : (pySplit ',' a).get? 1 with
    | none => rfl
    | some t =>
      rcases List.mem_cons.mp hm with rfl | hm'
      · rw [show (pySplit ',' m).get? 1 = tok1? m from rfl,
          tok1?_eq_none_of_len_one m h1] at ht
        exact absurd ht (by simp)
      · show (if t ≠ "CURRENT UPDATE FIELDNAMES".data then
            select_fieldnames fields symbol ms
          else
            match (pySplit ',' a).get? 2 with
            | none => none
            | some sym =>
              select_fieldnames ((pySplit ',' a).drop 2) sym ms) = none
        by_cases hteq : t = "CURRENT UPDATE FIELDNAMES".data
        · rw [if_neg (fun hn => hn hteq)]
          cases h2 : (pySplit ',' a).get? 2 with
          | none => rfl
          | some sym => exact ih hm' _ sym
        · rw [if_pos hteq]
          exact ih hm' fields symbol

/-- C9, counterexample: the cycle `["S,CURRENT UPDATE FIELDNAMES"]` satisfies
the claimed precondition — every message contains at least one comma — yet
`select_fieldnames` still reaches an index-error branch, because it also
indexes `split_message[2]` on a matching message; the precondition is
therefore not sufficient for freedom from out-of-range access. -/
theorem C9_counterexample :
    (∀ m ∈ [("S,CURRENT UPDATE FIELDNAMES".data : Str)], 2 ≤ tokLen m) ∧
    select_fieldnames [] [] ["S,CURRENT UPDATE FIELDNAMES".data] = none := by
  decide

/-- C9, amended: `check_startup`, `process_admin` and `select_fieldnames`
index the second comma token of every message and `check_error`'s logging
branch indexes it for each error-tagged message; under the precondition that
every message has at least one comma, `check_error`, `check_startup` and
`process_admin` are free of out-of-range access, while `select_fieldnames`
additionally requires any message whose second token is
`"CURRENT UPDATE FIELDNAMES"` to carry a third token (it also indexes
`split_message[2]`); conversely, a cycle containing a comma-free message
always reaches the index-error branch of `check_startup`, `process_admin`
and `select_fieldnames`, and a bare `"E"` line reaches the index-error
branch of `check_error`'s logging statement. -/
theorem token_access_safety :
    (∀ messages : List Str, (∀ m ∈ messages, 2 ≤ tokLen m) →
        (check_error messages).isSome ∧ (check_startup messages).isSome ∧
        (process_admin messages).isSome) ∧
    (∀ messages : List Str,
        (∀ m ∈ messages, 2 ≤ tokLen m ∧
          (tok1? m = some "CURRENT UPDATE FIELDNAMES".data → 3 ≤ tokLen m)) →
        ∀ (fields : List Str) (symbol : Str),
          (select_fieldnames fields symbol messages).isSome) ∧
    (∀ (messages : List Str) (m : Str), m ∈ messages → tokLen m = 1 →
        check_startup messages = none ∧ process_admin messages = none ∧
        ∀ (fields : List Str) (symbol : Str),
          select_fieldnames fields symbol messages = none) ∧
    (∀ (messages : List Str) (m : Str), m ∈ messages → tok0 m = "E".data →
        tokLen m = 1 → check_error messages = none) := by
  refine ⟨?_, select_fieldnames_isSome, ?_, ?_⟩
  · intro messages h
    refine ⟨?_, check_startup_go_isSome messages h false, process_admin_isSome messages h⟩
    have hbare : hasBareError messages = false := by
      simp only [hasBareError, List.any_eq_false]
      intro m hm hand
      have hlen : tokLen m = 1 :=
        of_decide_eq_true (Bool.and_elim_right hand)
      have := h m hm
      omega
    simp [check_error, hbare]
  · intro messages m hm h1
    exact ⟨check_startup_go_none messages m hm h1 false,
      process_admin_none messages m hm h1,
      select_fieldnames_none messages m hm h1⟩
  · intro messages m hm he h1
    have hbare : hasBareError messages = true := by
      simp only [hasBareError, List.any_eq_true]
      exact ⟨m, hm, by simp [he, h1]⟩
    simp [check_error, hbare]

/-- C9, witness: concrete instances of each part of the amended theorem — a
well-formed cycle is processed by all four operations without reaching an
index-error branch, while the comma-free message `""` derails
`check_startup`, `process_admin` and `select_fieldnames`, and the bare `"E"`
line derails `check_error`. -/
theorem token_access_safety_witness :
    ((check_error ["S,STATS,1".data, "E,err".data]).isSome ∧
      (check_startup ["S,STATS,1".data, "E,err".data]).isSome ∧
      (process_admin ["S,STATS,1".data, "E,err".data]).isSome) ∧
    (select_fieldnames [] []
      ["S,CURRENT UPDATE FIELDNAMES,AAPL,Last".data]).isSome ∧
    check_startup ["S,KEYOK".data, "".data] = none ∧
    select_fieldnames [] [] ["S,KEYOK".data, "".data] = none ∧
    check_error ["E".data] = none :=
  ⟨token_access_safety.1 ["S,STATS,1".data, "E,err".data] (by decide),
   token_access_safety.2.1 ["S,CURRENT UPDATE FIELDNAMES,AAPL,Last".data]
     (by decide) [] [],
   (token_access_safety.2.2.1 ["S,KEYOK".data, "".data] "".data (by decide)
     (by decide)).1,
   (token_access_safety.2.2.1 ["S,KEYOK".data, "".data] "".data (by decide)
     (by decide)).2.2 [] [],
   token_access_safety.2.2.2 ["E".data] "E".data (by decide) (by decide)
     (by decide)⟩

/-! ## Claim C10 -/

/-- C10: `Service.connection` passes the caller's timeout to the fresh
`Connection` when no session exists under the name, but the replacement
branch for an existing unconnected session omits the timeout argument, so the
rebuilt session gets the `Connection.__init__` default of 300 seconds. -/
theorem service_connection_timeout :
    (∀ (port : Nat) (name : Str) (timeout : Int),
        (service_connection none port name timeout).timeout = timeout) ∧
    (∀ (c : ConnectionObj) (port : Nat) (name : Str) (timeout : Int),
        c.connected = false →
        (service_connection (some c) port name timeout).timeout =
          CONNECTION_DEFAULT_TIMEOUT) := by
  constructor
  · intro port name timeout
    rfl
  · intro c port name timeout hc
    simp [service_connection, Connection_init, hc]

/-- C10, witness: a fresh session named `"lookup"` asked for a 7-second
timeout gets 7; replacing it after disconnection yields timeout 300. -/
theorem service_connection_timeout_witness :
    (service_connection none 9100 "lookup".data 7).timeout = 7 ∧
    (service_connection
        (some (Connection_init 9100 SERVICE_HOST "lookup".data 7))
        9100 "lookup".data 7).timeout = CONNECTION_DEFAULT_TIMEOUT :=
  ⟨service_connection_timeout.1 9100 "lookup".data 7,
   service_connection_timeout.2 (Connection_init 9100 SERVICE_HOST "lookup".data 7)
     9100 "lookup".data 7 rfl⟩

end Iqfeed
